import Mathlib

/-!
Verification development for the iterative math-solving agent.

The Python sources are embedded shallowly:
* strings are Lean `String`s; Python string primitives (`strip`, `lower`,
  `splitlines`, `startswith`, `endswith`, `in`, `find`, `split("\n")`) are
  modelled as executable functions over `List Char`;
* the fixed keyword regexes of `verification.py` are all of the shape
  "whole word (alternative literals)" and are modelled by a word-boundary
  search over the finite list of literal expansions of each pattern;
* fallible code returns `Except PyError`; in particular the dataclass
  constructor `VerificationResult(...)` called without its required
  `confidence` argument is modelled as raising `TypeError`;
* the LLM backends are abstracted as oracles supplying the generated
  texts and the classified verdict of each verification round.
-/

/-- Python exception values that the embedded code can raise. -/
inductive PyError where
  | typeError (msg : String)
deriving DecidableEq

/-- The dataclass `VerificationResult` of `math_agent/types.py`:
three required fields `is_valid`, `confidence`, `bug_report`. -/
structure VerificationResult where
  is_valid : Bool
  confidence : ℚ
  bug_report : String
deriving DecidableEq

/-- The exception message produced by calling the three-field dataclass
constructor with only two arguments. -/
def missingConfidenceMsg : String :=
  "VerificationResult.__init__ missing 1 required positional argument: confidence"

/-- The call `VerificationResult(is_valid=..., bug_report=...)` as written
throughout `math_agent/verification.py`: the dataclass requires the
`confidence` field, which is never passed, so the call raises `TypeError`. -/
def VerificationResultCall (is_valid : Bool) (bug_report : String) :
    Except PyError VerificationResult :=
  Except.error (PyError.typeError missingConfidenceMsg)

/-- Python whitespace stripped by `str.strip()` (ASCII part). -/
def isPyWs (c : Char) : Bool :=
  c = ' ' || c = '\t' || c = '\n' || c = '\r' || c = Char.ofNat 11 || c = Char.ofNat 12

/-- `str.strip()` on character lists. -/
def pyStripL (l : List Char) : List Char :=
  ((l.dropWhile isPyWs).reverse.dropWhile isPyWs).reverse

/-- `str.strip()`. -/
def pyStrip (s : String) : String :=
  ⟨pyStripL s.data⟩

/-- `str.lower()` (ASCII case folding, the only case the agent exercises). -/
def lowerStr (s : String) : String :=
  ⟨s.data.map Char.toLower⟩

/-- Characters at which `str.splitlines()` breaks. -/
def isLineBreak (c : Char) : Bool :=
  c = '\n' || c = '\r' || c = Char.ofNat 11 || c = Char.ofNat 12 ||
  c = Char.ofNat 28 || c = Char.ofNat 29 || c = Char.ofNat 30 ||
  c = Char.ofNat 133 || c = Char.ofNat 0x2028 || c = Char.ofNat 0x2029

/-- `str.splitlines()`: split at line breaks, treating `"\r\n"` as a single
break and emitting no trailing empty line for a terminal break. -/
def pySplitlinesAux : List Char → List Char → List (List Char)
  | [], acc => if acc.isEmpty then [] else [acc.reverse]
  | '\r' :: '\n' :: rest, acc => acc.reverse :: pySplitlinesAux rest []
  | c :: rest, acc =>
      if isLineBreak c then acc.reverse :: pySplitlinesAux rest []
      else pySplitlinesAux rest (c :: acc)

/-- `str.startswith(pat)` on character lists. -/
def pyStartsWith : List Char → List Char → Bool
  | _, [] => true
  | [], _ :: _ => false
  | c :: cs, p :: ps => c = p && pyStartsWith cs ps

/-- `str.endswith(pat)` on character lists. -/
def pyEndsWith (t pat : List Char) : Bool :=
  pyStartsWith t.reverse pat.reverse

/-- Python `pat in text` substring test on character lists. -/
def pyContainsL (pat : List Char) : List Char → Bool
  | [] => pyStartsWith [] pat
  | c :: cs => pyStartsWith (c :: cs) pat || pyContainsL pat cs

/-- The `\w` character class used by the word-boundary `\b` of the fixed
keyword regexes (all keywords are ASCII words). -/
def isWordChar (c : Char) : Bool :=
  ('a' ≤ c && c ≤ 'z') || ('A' ≤ c && c ≤ 'Z') || ('0' ≤ c && c ≤ '9') || c = '_'

/-- Match the literal `pat` at the head of `t` and require a word boundary
after it (all keyword literals end in a word character). -/
def wwRest : List Char → List Char → Bool
  | [], [] => true
  | [], c :: _ => !isWordChar c
  | _ :: _, [] => false
  | p :: ps, c :: cs => p = c && wwRest ps cs

/-- Search `t` for a whole-word occurrence of the literal `pat`; `prev` is
the character just before the current position (`none` at the start).
All keyword literals begin with a word character, so the leading `\b`
holds exactly when `prev` is absent or not a word character. -/
def wwSearchAux (pat : List Char) (prev : Option Char) : List Char → Bool
  | [] => (match prev with | none => true | some c => !isWordChar c) && wwRest pat []
  | c :: cs =>
      ((match prev with | none => true | some p => !isWordChar p) && wwRest pat (c :: cs))
      || wwSearchAux pat (some c) cs

/-- `re.search` for one of the fixed keyword patterns: each pattern is the
set of whole-word literal expansions of its alternation. -/
def patternFound (t : List Char) (group : List String) : Bool :=
  group.any fun p => wwSearchAux p.data none t

/-- Expansions of the positive regex lexicon of
`parse_verification_response`. -/
def positivePatterns : List (List String) :=
  [["correct"], ["valid"], ["accurate"],
   ["proof is sound", "proof is complete", "proof is correct"],
   ["no error", "no errors", "no bug", "no bugs",
    "no issue", "no issues", "no problem", "no problems"],
   ["solution is right", "solution is correct", "solution is valid"]]

/-- Expansions of the negative regex lexicon of
`parse_verification_response`. -/
def negativePatterns : List (List String) :=
  [["incorrect"], ["invalid"], ["error"], ["bug"], ["flaw"], ["mistake"],
   ["wrong"], ["fail", "failed", "fails"], ["gap"], ["missing"], ["unjustified"]]

/-- `sum(1 for pattern in patterns if re.search(pattern, text))`. -/
def countMatches (patterns : List (List String)) (t : List Char) : Nat :=
  (patterns.filter (patternFound t)).length

/-- The stripped, non-empty lines of the stripped response, as computed by
`lines = [line.strip() for line in stripped.splitlines() if line.strip()]`. -/
def parseLines (response : String) : List (List Char) :=
  ((pySplitlinesAux (pyStrip response).data []).map pyStripL).filter (fun l => l ≠ [])

/-- The `for line in reversed(lines)` scan for a strict final-verdict line:
the first line from the end whose lowering is one of the four verdict
literals decides; `some true` = yes, `some false` = no. -/
def verdictScan : List (List Char) → Option Bool
  | [] => none
  | l :: rest =>
      match verdictScan rest with
      | some b => some b
      | none =>
          let low := l.map Char.toLower
          if low = "final verdict: yes".data || low = "final verdict: yes.".data then
            some true
          else if low = "final verdict: no".data || low = "final verdict: no.".data then
            some false
          else none

/-- The `(is_valid, bug_report)` arguments that `parse_verification_response`
(`math_agent/verification.py`) passes to the `VerificationResult` constructor
on the branch it reaches: the classification content of the function,
independent of the constructor raising for the missing `confidence`. -/
def parseFields (response : String) : Bool × String :=
  let text := lowerStr (pyStrip response)
  match verdictScan (parseLines response) with
  | some true => (true, "")
  | some false => (false, response)
  | none =>
    if text = "yes" then (true, "")
    else if text = "no" then (false, response)
    else
      let t := text.data
      let starts_with_yes := pyStartsWith t "yes".data
      let starts_with_no := pyStartsWith t "no".data
      let ends_with_yes := pyEndsWith t "yes".data || pyEndsWith t "yes.".data
      let ends_with_no := pyEndsWith t "no".data || pyEndsWith t "no.".data
      if starts_with_yes || ends_with_yes then (true, "")
      else if starts_with_no || ends_with_no then (false, response)
      else
        let positive_count := countMatches positivePatterns t
        let negative_count := countMatches negativePatterns t
        if negative_count < positive_count then (true, "")
        else if positive_count < negative_count then (false, response)
        else if pyContainsL "yes".data t && !pyContainsL "no".data t then (true, "")
        else if pyContainsL "no".data t && !pyContainsL "yes".data t then (false, response)
        else (false, "Ambiguous verification response: " ++ response)

/-- `parse_verification_response` of `math_agent/verification.py`, faithful
to its fallibility: every return statement calls the `VerificationResult`
constructor without the required `confidence` field. -/
def parse_verification_response (response : String) :
    Except PyError VerificationResult :=
  let text := lowerStr (pyStrip response)
  match verdictScan (parseLines response) with
  | some true => VerificationResultCall true ""
  | some false => VerificationResultCall false response
  | none =>
    if text = "yes" then VerificationResultCall true ""
    else if text = "no" then VerificationResultCall false response
    else
      let t := text.data
      let starts_with_yes := pyStartsWith t "yes".data
      let starts_with_no := pyStartsWith t "no".data
      let ends_with_yes := pyEndsWith t "yes".data || pyEndsWith t "yes.".data
      let ends_with_no := pyEndsWith t "no".data || pyEndsWith t "no.".data
      if starts_with_yes || ends_with_yes then VerificationResultCall true ""
      else if starts_with_no || ends_with_no then VerificationResultCall false response
      else
        let positive_count := countMatches positivePatterns t
        let negative_count := countMatches negativePatterns t
        if negative_count < positive_count then VerificationResultCall true ""
        else if positive_count < negative_count then VerificationResultCall false response
        else if pyContainsL "yes".data t && !pyContainsL "no".data t then
          VerificationResultCall true ""
        else if pyContainsL "no".data t && !pyContainsL "yes".data t then
          VerificationResultCall false response
        else VerificationResultCall false ("Ambiguous verification response: " ++ response)

/-- `summarize_verification`, faithful to its fallibility: the inner call to
`parse_verification_response` raises, and the replacement constructor call
would raise as well. -/
def summarize_verification (decision_response verification_log : String) :
    Except PyError VerificationResult :=
  match parse_verification_response decision_response with
  | Except.error e => Except.error e
  | Except.ok decision =>
      if decision.is_valid then Except.ok decision
      else VerificationResultCall false verification_log

/-- The `(is_valid, bug_report)` content of `summarize_verification`: the
decision of `parseFields`, with the bug report replaced by the full
verification log when invalid. -/
def summarizeFields (decision_response verification_log : String) : Bool × String :=
  let d := parseFields decision_response
  if d.1 then d else (false, verification_log)

/-- The frozen dataclass `AgentConfig` of `math_agent/config.py`, with its
default field values.  Floats are modelled as rationals. -/
structure AgentConfig where
  solver_temperature : ℚ := 7 / 10
  verifier_temperature : ℚ := 1 / 10
  max_verification_iterations : Nat := 30
  required_consecutive_validations : Nat := 5
  max_consecutive_errors : Nat := 10
  max_tokens : Nat := 8192
  retry_attempts : Nat := 3
  retry_base_delay : ℚ := 1
deriving DecidableEq

/-- A provider failure raised by `_generate_impl`. -/
structure GenError where
  msg : String
deriving DecidableEq

/-- The retry loop of `LLMBackend.generate` (`imo_math_agent/backends/base.py`).
`impl k` is the outcome of the `k`-th call (0-based) to `_generate_impl`;
`remaining` is `retry_attempts - attempt`.  The result records the value
returned or the exception raised (`Except.error none` models the degenerate
`raise last_exception` with `last_exception = None` when no attempt ran),
the list of backoff sleep durations in order, and the number of provider
calls made. -/
def generateAux (impl : Nat → Except GenError String) (base : ℚ) :
    Nat → Nat → Option GenError → Except (Option GenError) String × List ℚ × Nat
  | 0, _attempt, last => (Except.error last, [], 0)
  | remaining + 1, attempt, _last =>
      match impl attempt with
      | Except.ok s => (Except.ok s, [], 1)
      | Except.error e =>
          if remaining = 0 then (Except.error (some e), [], 1)
          else
            let r := generateAux impl base remaining (attempt + 1) (some e)
            (r.1, base * 2 ^ attempt :: r.2.1, r.2.2 + 1)

/-- `LLMBackend.generate`: up to `retry_attempts` provider calls with
exponential backoff `retry_base_delay * 2 ^ attempt` between failed
attempts, propagating the last error after the final failure. -/
def LLMBackend.generate (impl : Nat → Except GenError String)
    (retry_attempts : Nat) (retry_base_delay : ℚ) :
    Except (Option GenError) String × List ℚ × Nat :=
  generateAux impl retry_base_delay retry_attempts 0 none

/-- Message roles of `math_agent/types.py`. -/
inductive MessageRole where
  | system
  | user
  | assistant
deriving DecidableEq

/-- A message of `math_agent/types.py`. -/
structure Message where
  role : MessageRole
  content : String
deriving DecidableEq

/-- Modelled from the spec: `merge_consecutive_messages` is invoked by every
backend under `math_agent/backends/` but its definition is not among the
source files.  Following section 4.2 of the design: scan the turns in
order and replace each run of adjacent same-role turns by a single turn
whose content is the originals joined by a blank line, preserving order. -/
def merge_consecutive_messages : List Message → List Message
  | [] => []
  | [m] => [m]
  | m1 :: m2 :: rest =>
      if m1.role = m2.role then
        merge_consecutive_messages
          ({ role := m1.role, content := m1.content ++ "\n\n" ++ m2.content } :: rest)
      else
        m1 :: merge_consecutive_messages (m2 :: rest)
termination_by l => l.length
decreasing_by
  all_goals simp only [List.length_cons]
  all_goals omega

/-- `text.split("\n")` of `utils.py`: split at every newline, keeping
empty pieces. -/
def splitNlAux : List Char → List Char → List (List Char)
  | [], acc => [acc.reverse]
  | '\n' :: rest, acc => acc.reverse :: splitNlAux rest []
  | c :: rest, acc => splitNlAux rest (c :: acc)

/-- `text.find(pat)` returning the first match position. -/
def pyFindAux (pat : List Char) : List Char → Nat → Option Nat
  | [], i => if pyStartsWith [] pat then some i else none
  | c :: cs, i =>
      if pyStartsWith (c :: cs) pat then some i else pyFindAux pat cs (i + 1)

/-- `"\n".join(lines)`. -/
def joinNl : List (List Char) → List Char
  | [] => []
  | [l] => l
  | l :: l2 :: ls => l ++ '\n' :: joinNl (l2 :: ls)

/-- Index of the first line containing the marker as a substring. -/
def firstLineIdx (marker : List Char) : List (List Char) → Option Nat
  | [] => none
  | l :: ls =>
      if pyContainsL marker l then some 0
      else (firstLineIdx marker ls).map (· + 1)

/-- One iteration of the marker loop of `extract_detailed_solution`: the
line scan, then the inline `text.find` fallback. -/
def extractWithMarker (textData : List Char) (lines : List (List Char))
    (after : Bool) (marker : List Char) : Option (List Char) :=
  match firstLineIdx marker lines with
  | some i =>
      some (if after then pyStripL (joinNl (lines.drop (i + 1)))
            else pyStripL (joinNl (lines.take i)))
  | none =>
      match pyFindAux marker textData 0 with
      | some pos =>
          some (if after then pyStripL (textData.drop (pos + marker.length))
                else pyStripL (textData.take pos))
      | none => none

/-- The `for search_marker in search_markers` loop. -/
def extractLoop (textData : List Char) (lines : List (List Char))
    (after : Bool) : List (List Char) → Option (List Char)
  | [] => none
  | m :: ms =>
      match extractWithMarker textData lines after m with
      | some r => some r
      | none => extractLoop textData lines after ms

/-- `extract_detailed_solution` of `math_agent/utils.py`.  Returns the
extracted text together with a flag recording whether the missing-marker
diagnostic (`logger.warning`) was emitted. -/
def extract_detailed_solution (text : String)
    (marker : String := "Detailed Solution") (after : Bool := true)
    (markers : Option (List String) := none) : String × Bool :=
  let search := (markers.getD [marker]).map String.data
  let lines := splitNlAux text.data []
  match extractLoop text.data lines after search with
  | some r => (⟨r⟩, false)
  | none => (pyStrip text, after)

/-- The backend interactions of one `MathAgent.solve` run, abstracted as a
deterministic oracle: `explore` is the initial candidate, `improve` the
self-improvement rewrite, `correctFn sol bug` the corrected candidate, and
`verdict k` / `bugReport k` the classified validity and bug report of the
`k`-th verification round (0-based), i.e. the outcome of
`_verify_solution` for that round. -/
structure SolveOracle where
  explore : String
  improve : String → String
  correctFn : String → String → String
  verdict : Nat → Bool
  bugReport : Nat → String

/-- `max_iterations or self.config.max_verification_iterations`
(`agent.py` line 48): Python `or` takes the right operand when the left is
falsy, i.e. `None` or `0`. -/
def resolveMaxIter (max_iterations : Option Int) (cfgIter : Nat) : Int :=
  match max_iterations with
  | none => cfgIter
  | some n => if n = 0 then (cfgIter : Int) else n

/-- The `for i in range(max_iter)` verification loop of `MathAgent.solve`.
State: remaining iterations (`fuel`), current solution, the most recent
verification result (`lastValid`, round index `rounds - 1`), the streak
counters and the number of verification rounds performed so far.  Returns
the solve result together with the total number of verification rounds. -/
def verificationLoop (O : SolveOracle) (required maxErrors : Nat) :
    Nat → String → Bool → Nat → Nat → Nat → Option String × Nat
  | 0, _sol, _lastValid, _cc, _ec, rounds => (none, rounds)
  | fuel + 1, sol, lastValid, cc, ec, rounds =>
      let cc1 := if lastValid then cc else 0
      let ec1 := if lastValid then ec else ec + 1
      let sol1 := if lastValid then sol else O.correctFn sol (O.bugReport (rounds - 1))
      let newValid := O.verdict rounds
      let cc2 := if newValid then cc1 + 1 else cc1
      let ec2 := if newValid then 0 else ec1
      if required ≤ cc2 then (some sol1, rounds + 1)
      else if maxErrors ≤ ec2 then (none, rounds + 1)
      else verificationLoop O required maxErrors fuel sol1 newValid cc2 ec2 (rounds + 1)

/-- `MathAgent.solve` (`math_agent/agent.py`), instrumented to also return
the number of verification rounds performed: initial exploration (empty
output aborts), unconditional self-improvement, initial verification, then
the verification loop. -/
def solveInstr (O : SolveOracle) (cfg : AgentConfig)
    (max_iterations : Option Int) : Option String × Nat :=
  let max_iter := resolveMaxIter max_iterations cfg.max_verification_iterations
  let solution := O.explore
  if solution = "" then (none, 0)
  else
    let solution := O.improve solution
    let v0 := O.verdict 0
    let cc := if v0 then 1 else 0
    verificationLoop O cfg.required_consecutive_validations
      cfg.max_consecutive_errors max_iter.toNat solution v0 cc 0 1

/-- `MathAgent.solve`: the returned solution (or `none`). -/
def MathAgent.solve (O : SolveOracle) (cfg : AgentConfig)
    (max_iterations : Option Int) : Option String :=
  (solveInstr O cfg max_iterations).1

deriving instance DecidableEq for Except

/-- Whether no two adjacent turns of a conversation share a role. -/
def rolesAlternate : List Message → Bool
  | [] => true
  | [_] => true
  | m1 :: m2 :: rest =>
      if m1.role = m2.role then false else rolesAlternate (m2 :: rest)

/-- A provider that fails twice and then succeeds. -/
def implW : Nat → Except GenError String :=
  fun k => if k < 2 then Except.error ⟨"quota"⟩ else Except.ok "result"

/-- A backend whose first verification round is classified valid and all
later rounds invalid. -/
def cexOracle : SolveOracle :=
  { explore := "draft"
    improve := fun s => s ++ "+"
    correctFn := fun s _ => s ++ "!"
    verdict := fun k => k == 0
    bugReport := fun _ => "issue log" }

/-- A configuration demanding a single consecutive validation. -/
def cexConfig : AgentConfig :=
  { required_consecutive_validations := 1 }

/-- A backend whose verification rounds are all classified valid. -/
def alwaysYesOracle : SolveOracle :=
  { explore := "candidate"
    improve := fun s => s
    correctFn := fun s _ => s
    verdict := fun _ => true
    bugReport := fun _ => "issue log" }

/-- A backend whose verification rounds are all classified invalid. -/
def alwaysNoOracle : SolveOracle :=
  { explore := "candidate"
    improve := fun s => s
    correctFn := fun s _ => s
    verdict := fun _ => false
    bugReport := fun _ => "issue log" }

/-! ## Helper lemmas -/

theorem ambiguousNeEmpty (s : String) :
    ("Ambiguous verification response: " ++ s) ≠ "" := by
  intro h
  have h2 := congrArg String.length h
  simp [String.length_append] at h2
  exact absurd h2.1 (by decide)

theorem parseFields_invariant (s : String) :
    (parseFields s).1 = false ↔ (parseFields s).2 ≠ "" := by
  by_cases hs : s = ""
  · subst hs; decide
  · unfold parseFields
    cases verdictScan (parseLines s) with
    | some b => cases b <;> simp [hs]
    | none =>
        dsimp only
        split_ifs <;> simp [hs, ambiguousNeEmpty]

theorem summarizeFields_invariant (d lg : String) (h : lg ≠ "") :
    (summarizeFields d lg).1 = false ↔ (summarizeFields d lg).2 ≠ "" := by
  unfold summarizeFields
  dsimp only
  by_cases hv : (parseFields d).1 = true
  · rw [if_pos hv]
    exact parseFields_invariant d
  · rw [if_neg hv]
    simp [h]

theorem verificationLoop_success (O : SolveOracle) (required maxErrors : Nat)
    (hreq : 2 ≤ required) :
    ∀ fuel sol lastValid cc ec rounds s n,
      1 ≤ rounds →
      lastValid = O.verdict (rounds - 1) →
      cc < required →
      (lastValid = true → 1 ≤ cc ∧ cc ≤ rounds ∧
        ∀ k, rounds - cc ≤ k → k < rounds → O.verdict k = true) →
      verificationLoop O required maxErrors fuel sol lastValid cc ec rounds = (some s, n) →
      required ≤ n ∧ ∀ k, n - required ≤ k → k < n → O.verdict k = true := by
  intro fuel
  induction fuel with
  | zero =>
      intro sol lastValid cc ec rounds s n _ _ _ _ hloop
      simp [verificationLoop] at hloop
  | succ fuel ih =>
      intro sol lastValid cc ec rounds s n hr hlv hcc hstreak hloop
      simp only [verificationLoop] at hloop
      cases hnew : O.verdict rounds with
      | true =>
          rw [hnew] at hloop
          simp only [if_true] at hloop
          have hstreak2 : ∀ k, (rounds + 1) - ((if lastValid = true then cc else 0) + 1) ≤ k →
              k < rounds + 1 → O.verdict k = true := by
            intro k hk1 hk2
            rcases Nat.lt_succ_iff_lt_or_eq.mp hk2 with hk3 | rfl
            · cases hlv2 : lastValid with
              | true =>
                  obtain ⟨h1, h2, h3⟩ := hstreak hlv2
                  rw [hlv2] at hk1
                  simp at hk1
                  exact h3 k (by omega) hk3
              | false =>
                  rw [hlv2] at hk1
                  simp at hk1
                  omega
            · exact hnew
          have hccle : (if lastValid = true then cc else 0) + 1 ≤ rounds + 1 := by
            cases hlv2 : lastValid with
            | true => obtain ⟨h1, h2, h3⟩ := hstreak hlv2; simp only [if_true]; omega
            | false => simp only [Bool.false_eq_true, if_false]; omega
          by_cases hsucc : required ≤ (if lastValid = true then cc else 0) + 1
          · rw [if_pos hsucc] at hloop
            have hn : rounds + 1 = n := by
              have := congrArg Prod.snd hloop
              simpa using this
            subst hn
            refine ⟨by omega, ?_⟩
            intro k hk1 hk2
            exact hstreak2 k (by omega) hk2
          · rw [if_neg hsucc] at hloop
            by_cases herr0 : maxErrors ≤ 0
            · rw [if_pos herr0] at hloop
              exact absurd (congrArg Prod.fst hloop) (by simp)
            · rw [if_neg herr0] at hloop
              refine ih _ _ _ _ _ _ _ (by omega) (by simp [hnew]) (by omega) ?_ hloop
              intro _
              refine ⟨by omega, hccle, hstreak2⟩
      | false =>
          rw [hnew] at hloop
          simp only [Bool.false_eq_true, if_false] at hloop
          have hlt : (if lastValid = true then cc else 0) < required := by
            cases hlv2 : lastValid with
            | true => simp only [if_true]; omega
            | false => simp only [Bool.false_eq_true, if_false]; omega
          rw [if_neg (by omega : ¬ required ≤ (if lastValid = true then cc else 0))] at hloop
          by_cases herr : maxErrors ≤ (if lastValid = true then ec else ec + 1)
          · rw [if_pos herr] at hloop
            exact absurd (congrArg Prod.fst hloop) (by simp)
          · rw [if_neg herr] at hloop
            refine ih _ _ _ _ _ _ _ (by omega) (by simp [hnew]) hlt ?_ hloop
            intro h
            exact absurd h (by simp)

theorem verificationLoop_allInvalid (O : SolveOracle) (required maxErrors : Nat)
    (hv : ∀ k, O.verdict k = false) (hreq : 1 ≤ required) :
    ∀ fuel sol ec rounds, rounds = ec + 1 → ec < maxErrors →
      (verificationLoop O required maxErrors fuel sol false 0 ec rounds).1 = none ∧
      (verificationLoop O required maxErrors fuel sol false 0 ec rounds).2 ≤ maxErrors + 1 := by
  intro fuel
  induction fuel with
  | zero =>
      intro sol ec rounds hr he
      simp only [verificationLoop]
      exact ⟨by simp, by omega⟩
  | succ fuel ih =>
      intro sol ec rounds hr he
      simp only [verificationLoop, Bool.false_eq_true, if_false, hv rounds]
      rw [if_neg (by omega : ¬ required ≤ 0)]
      by_cases herr : maxErrors ≤ ec + 1
      · rw [if_pos herr]
        exact ⟨by simp, by omega⟩
      · rw [if_neg herr]
        exact ih _ (ec + 1) (rounds + 1) (by omega) (by omega)

theorem generateAux_calls_le (impl : Nat → Except GenError String) (base : ℚ) :
    ∀ fuel attempt last, (generateAux impl base fuel attempt last).2.2 ≤ fuel := by
  intro fuel
  induction fuel with
  | zero => intro attempt last; simp [generateAux]
  | succ fuel ih =>
      intro attempt last
      rw [generateAux]
      cases himpl : impl attempt with
      | ok s => simp
      | error e =>
          dsimp only
          by_cases hz : fuel = 0
          · rw [if_pos hz]; simp [hz]
          · rw [if_neg hz]
            have := ih (attempt + 1) (some e)
            simp only []
            omega

theorem generateAux_success (impl : Nat → Except GenError String) (base : ℚ) :
    ∀ j fuel attempt last s, j < fuel →
      (∀ k, k < j → ∃ e, impl (attempt + k) = Except.error e) →
      impl (attempt + j) = Except.ok s →
      generateAux impl base fuel attempt last =
        (Except.ok s, (List.range j).map (fun k => base * 2 ^ (attempt + k)), j + 1) := by
  intro j
  induction j with
  | zero =>
      intro fuel attempt last s hj hk hs
      obtain ⟨f, rfl⟩ : ∃ f, fuel = f + 1 := ⟨fuel - 1, by omega⟩
      rw [generateAux]
      rw [Nat.add_zero] at hs
      rw [hs]
      simp
  | succ j ihj =>
      intro fuel attempt last s hj hk hs
      obtain ⟨f, rfl⟩ : ∃ f, fuel = f + 1 := ⟨fuel - 1, by omega⟩
      obtain ⟨e0, he0⟩ := hk 0 (by omega)
      rw [Nat.add_zero] at he0
      rw [generateAux, he0]
      dsimp only
      rw [if_neg (by omega : ¬ f = 0)]
      have hrec := ihj f (attempt + 1) (some e0) s (by omega)
        (fun k hk2 => by
          obtain ⟨e2, he2⟩ := hk (k + 1) (by omega)
          exact ⟨e2, by rw [← he2]; congr 1; omega⟩)
        (by rw [← hs]; congr 1; omega)
      rw [hrec]
      refine congrArg (fun l => (Except.ok s, l, j + 1 + 1)) ?_
      rw [List.range_succ_eq_map, List.map_cons, List.map_map]
      refine congrArg₂ (· :: ·) (by rw [Nat.add_zero]) ?_
      refine List.map_congr_left ?_
      intro k _
      simp only [Function.comp]
      have : attempt + (k + 1) = attempt + 1 + k := by omega
      rw [← this]

theorem generateAux_allfail (impl : Nat → Except GenError String) (base : ℚ) :
    ∀ fuel attempt last e, 1 ≤ fuel →
      (∀ k, k < fuel → ∃ e2, impl (attempt + k) = Except.error e2) →
      impl (attempt + (fuel - 1)) = Except.error e →
      generateAux impl base fuel attempt last =
        (Except.error (some e), (List.range (fuel - 1)).map (fun k => base * 2 ^ (attempt + k)), fuel) := by
  intro fuel
  induction fuel with
  | zero => intro attempt last e hf; omega
  | succ f ihf =>
      intro attempt last e _ hk hlast
      cases f with
      | zero =>
          rw [Nat.add_zero] at hlast
          rw [generateAux, hlast]
          simp
      | succ f2 =>
          obtain ⟨e0, he0⟩ := hk 0 (by omega)
          rw [Nat.add_zero] at he0
          rw [generateAux, he0]
          dsimp only
          rw [if_neg (by omega : ¬ f2 + 1 = 0)]
          have hrec := ihf (attempt + 1) (some e0) e (by omega)
            (fun k hk2 => by
              obtain ⟨e2, he2⟩ := hk (k + 1) (by omega)
              exact ⟨e2, by rw [← he2]; congr 1; omega⟩)
            (by rw [← hlast]; congr 1; omega)
          rw [hrec]
          refine congrArg (fun l => (Except.error (some e), l, f2 + 1 + 1)) ?_
          show base * 2 ^ attempt ::
              List.map (fun k => base * 2 ^ (attempt + 1 + k)) (List.range (f2 + 1 - 1)) =
            List.map (fun k => base * 2 ^ (attempt + k)) (List.range (f2 + 1 + 1 - 1))
          have h1 : f2 + 1 - 1 = f2 := by omega
          have h2 : f2 + 1 + 1 - 1 = f2 + 1 := by omega
          rw [h1, h2, List.range_succ_eq_map, List.map_cons, List.map_map]
          refine congrArg₂ (· :: ·) (by rw [Nat.add_zero]) ?_
          refine List.map_congr_left ?_
          intro k _
          simp only [Function.comp]
          have : attempt + (k + 1) = attempt + 1 + k := by omega
          rw [← this]

theorem merge_head (n : Nat) :
    ∀ l (m : Message), l.length ≤ n →
      ∃ m2 tl, merge_consecutive_messages (m :: l) = m2 :: tl ∧ m2.role = m.role := by
  induction n with
  | zero =>
      intro l m hl
      have : l = [] := List.length_eq_zero.mp (by omega)
      subst this
      exact ⟨m, [], by rw [merge_consecutive_messages], rfl⟩
  | succ n ih =>
      intro l m hl
      cases l with
      | nil => exact ⟨m, [], by rw [merge_consecutive_messages], rfl⟩
      | cons m2 rest =>
          rw [merge_consecutive_messages]
          by_cases hrole : m.role = m2.role
          · rw [if_pos hrole]
            obtain ⟨m3, tl, heq, hr⟩ := ih rest
              { role := m.role, content := m.content ++ "\n\n" ++ m2.content }
              (by simp at hl; omega)
            exact ⟨m3, tl, heq, hr⟩
          · rw [if_neg hrole]
            exact ⟨m, _, rfl, rfl⟩

theorem merge_alternates (n : Nat) :
    ∀ l : List Message, l.length ≤ n →
      rolesAlternate (merge_consecutive_messages l) = true := by
  induction n with
  | zero =>
      intro l hl
      have : l = [] := List.length_eq_zero.mp (by omega)
      subst this
      rw [merge_consecutive_messages]
      rfl
  | succ n ih =>
      intro l hl
      match l with
      | [] => rw [merge_consecutive_messages]; rfl
      | [m] => rw [merge_consecutive_messages]; rfl
      | m1 :: m2 :: rest =>
          rw [merge_consecutive_messages]
          by_cases hrole : m1.role = m2.role
          · rw [if_pos hrole]
            exact ih _ (by simp at hl ⊢; omega)
          · rw [if_neg hrole]
            obtain ⟨m3, tl, heq, hr⟩ := merge_head n rest m2 (by simp at hl; omega)
            rw [heq]
            rw [rolesAlternate]
            rw [if_neg (by rw [hr]; exact hrole)]
            rw [← heq]
            exact ih _ (by simp at hl ⊢; omega)

theorem merge_fixed :
    ∀ l : List Message, rolesAlternate l = true →
      merge_consecutive_messages l = l := by
  intro l
  induction l with
  | nil => intro _; rw [merge_consecutive_messages]
  | cons m1 tl ih =>
      intro halt
      cases tl with
      | nil => rw [merge_consecutive_messages]
      | cons m2 rest =>
          rw [rolesAlternate] at halt
          by_cases hrole : m1.role = m2.role
          · rw [if_pos hrole] at halt; exact absurd halt (by simp)
          · rw [if_neg hrole] at halt
            rw [merge_consecutive_messages, if_neg hrole, ih halt]

theorem firstLineIdx_none (marker : List Char) :
    ∀ ls : List (List Char), (∀ l ∈ ls, pyContainsL marker l = false) →
      firstLineIdx marker ls = none := by
  intro ls
  induction ls with
  | nil => intro _; rfl
  | cons l rest ih =>
      intro h
      rw [firstLineIdx]
      rw [h l (by simp)]
      simp only [Bool.false_eq_true, if_false]
      rw [ih (fun l2 hl2 => h l2 (by simp [hl2]))]
      rfl

/-! ## Claim theorems -/

/-- Claim C1 (code bug): `parse_verification_response` is claimed to be total
over all strings, but on every input and every branch it calls the
`VerificationResult` dataclass constructor without the required
`confidence` field, so it always raises `TypeError` instead of returning a
result. -/
theorem claimC1_parse_always_raises (s : String) :
    parse_verification_response s = Except.error (PyError.typeError missingConfidenceMsg) := by
  unfold parse_verification_response
  cases verdictScan (parseLines s) with
  | some b => cases b <;> rfl
  | none =>
      dsimp only
      split_ifs <;> rfl

/-- Claim C2, counterexample: with `required_consecutive_validations = 1`,
an initial valid round followed by invalid rounds makes `solve` return a
solution (after 2 verification rounds) whose latest verification round was
classified invalid, refuting the claim that the reset happens before the
success check and that `solve` never returns right after an invalid round
for every configuration with `required_consecutive_validations ≥ 1`. -/
theorem claimC2_cex :
    MathAgent.solve cexOracle cexConfig none = some "draft+" ∧
    (solveInstr cexOracle cexConfig none).2 = 2 ∧
    cexOracle.verdict ((solveInstr cexOracle cexConfig none).2 - 1) = false := by
  decide

/-- Claim C2, amended: the invalid-round reset of `correct_streak` happens
only at the start of the next loop iteration, after the current success
check; consequently the claimed guarantee holds for every configuration
with `required_consecutive_validations ≥ 2`: whenever `solve` returns a
solution after `n` verification rounds, the most recent
`required_consecutive_validations` rounds (including round `n - 1`, the
last one before return) were all classified valid. -/
theorem claimC2_amended (O : SolveOracle) (cfg : AgentConfig) (mi : Option Int)
    (s : String) (n : Nat)
    (hreq : 2 ≤ cfg.required_consecutive_validations)
    (h : solveInstr O cfg mi = (some s, n)) :
    cfg.required_consecutive_validations ≤ n ∧
      ∀ k, n - cfg.required_consecutive_validations ≤ k → k < n → O.verdict k = true := by
  unfold solveInstr at h
  by_cases hex : O.explore = ""
  · rw [if_pos hex] at h
    exact absurd (congrArg Prod.fst h) (by simp)
  · rw [if_neg hex] at h
    refine verificationLoop_success O _ _ hreq _ _ _ _ _ _ _ _ (le_refl 1) rfl ?_ ?_ h
    · cases hv0 : O.verdict 0 <;> simp <;> omega
    · intro hv0
      rw [hv0]
      refine ⟨by simp, by simp, ?_⟩
      intro k hk1 hk2
      have : k = 0 := by omega
      subst this
      exact hv0

/-- Witness for the amended claim C2, at the default configuration
(`required_consecutive_validations = 5`) and an always-valid verifier:
`solve` returns after exactly 5 rounds and all 5 rounds were valid. -/
theorem claimC2_witness :
    ({} : AgentConfig).required_consecutive_validations ≤ 5 ∧
      ∀ k, 5 - ({} : AgentConfig).required_consecutive_validations ≤ k → k < 5 →
        alwaysYesOracle.verdict k = true :=
  claimC2_amended alwaysYesOracle {} none "candidate" 5 (by decide) (by decide)

/-- Claim C3, counterexample: with the default configuration
(`max_consecutive_errors = 10`) and a verifier whose rounds are all
classified invalid, `solve` performs 11 invalid verification rounds, which
exceeds `max_consecutive_errors`, refuting the claimed bound. -/
theorem claimC3_cex :
    (solveInstr alwaysNoOracle {} none).2 = 11 ∧
    ¬ (solveInstr alwaysNoOracle {} none).2 ≤ ({} : AgentConfig).max_consecutive_errors := by
  decide

/-- Claim C3, amended: for every problem and every verifier whose rounds
are all classified invalid, provided `required_consecutive_validations ≥ 1`
and `max_consecutive_errors ≥ 1`, `solve` returns no solution and performs
at most `max_consecutive_errors + 1` (not `max_consecutive_errors`)
verification rounds, all invalid, before terminating. -/
theorem claimC3_amended (O : SolveOracle) (cfg : AgentConfig) (mi : Option Int)
    (hv : ∀ k, O.verdict k = false)
    (hreq : 1 ≤ cfg.required_consecutive_validations)
    (herr : 1 ≤ cfg.max_consecutive_errors) :
    (solveInstr O cfg mi).1 = none ∧
      (solveInstr O cfg mi).2 ≤ cfg.max_consecutive_errors + 1 := by
  unfold solveInstr
  by_cases hex : O.explore = ""
  · rw [if_pos hex]
    exact ⟨by simp, by omega⟩
  · rw [if_neg hex]
    rw [hv 0]
    simp only [Bool.false_eq_true, if_false]
    exact verificationLoop_allInvalid O _ _ hv hreq _ _ 0 1 rfl (by omega)

/-- Witness for the amended claim C3, at the default configuration and the
always-invalid verifier. -/
theorem claimC3_witness :
    (solveInstr alwaysNoOracle {} none).1 = none ∧
      (solveInstr alwaysNoOracle {} none).2 ≤ ({} : AgentConfig).max_consecutive_errors + 1 :=
  claimC3_amended alwaysNoOracle {} none (fun _ => rfl) (by decide) (by decide)

/-- Claim C4: for `retry_attempts = n ≥ 1`, `LLMBackend.generate` calls the
provider at most `n` times; if the first `j` attempts fail and attempt `j`
succeeds, exactly `j` backoff sleeps of `base * 2 ^ k` (`k < j`) occur and
the successful result is returned after `j + 1` calls; if all `n` attempts
fail, the last provider error is propagated unchanged after `n - 1`
sleeps. -/
theorem claimC4_retry (impl : Nat → Except GenError String) (n : Nat) (base : ℚ)
    (hn : 1 ≤ n) :
    (LLMBackend.generate impl n base).2.2 ≤ n ∧
    (∀ j s, j < n → (∀ k, k < j → ∃ e, impl k = Except.error e) →
      impl j = Except.ok s →
      LLMBackend.generate impl n base =
        (Except.ok s, (List.range j).map (fun k => base * 2 ^ k), j + 1)) ∧
    (∀ e, (∀ k, k < n → ∃ e2, impl k = Except.error e2) →
      impl (n - 1) = Except.error e →
      LLMBackend.generate impl n base =
        (Except.error (some e), (List.range (n - 1)).map (fun k => base * 2 ^ k), n)) := by
  refine ⟨generateAux_calls_le impl base n 0 none, ?_, ?_⟩
  · intro j s hj hk hs
    have := generateAux_success impl base j n 0 none s hj
      (fun k hk2 => by simpa using hk k hk2) (by simpa using hs)
    simpa using this
  · intro e hk hlast
    have := generateAux_allfail impl base n 0 none e hn
      (fun k hk2 => by simpa using hk k hk2) (by simpa using hlast)
    simpa using this

/-- Witness for claim C4: `retry_attempts = 3`, base delay 1, a provider
failing twice then succeeding: two sleeps of durations 1 and 2, the third
result returned, three provider calls. -/
theorem claimC4_witness :
    1 ≤ 3 ∧
      LLMBackend.generate implW 3 1 = (Except.ok "result", [1 * 2 ^ 0, 1 * 2 ^ 1], 3) := by
  refine ⟨by decide, ?_⟩
  have := (claimC4_retry implW 3 1 (by decide)).2.1 2 "result" (by decide)
    (fun k hk => ⟨⟨"quota"⟩, by interval_cases k <;> rfl⟩) rfl
  simpa using this

/-- Claim C5 (code bug): the classifier is claimed to attach a prescribed
confidence to every result, but the source never passes any confidence to
the `VerificationResult` constructor (no confidence constant exists in the
code), so even on the inputs where confidence 1.0 is prescribed the call
raises `TypeError` instead of producing a result. -/
theorem claimC5_confidence_never_set :
    parse_verification_response "Final Verdict: yes" =
      Except.error (PyError.typeError missingConfidenceMsg) ∧
    parse_verification_response "yes" =
      Except.error (PyError.typeError missingConfidenceMsg) := by
  decide

/-- Claim C6, counterexample: `summarize_verification` with an invalid
decision and an empty verification log yields an invalid result with an
empty bug report, refuting the claimed invariant that an invalid result
always carries a non-empty bug report. -/
theorem claimC6_cex :
    (summarizeFields "no" "").1 = false ∧ (summarizeFields "no" "").2 = "" := by
  decide

/-- Claim C6, amended: for the classifier itself, the bug report is
non-empty exactly when the result is invalid (in terms of the
`(is_valid, bug_report)` arguments the code passes); for
`summarize_verification` the equivalence holds provided the verification
log is non-empty — an empty log produces an invalid result with an empty
bug report. -/
theorem claimC6_amended :
    (∀ s : String, (parseFields s).1 = false ↔ (parseFields s).2 ≠ "") ∧
    (∀ d lg : String, lg ≠ "" →
      ((summarizeFields d lg).1 = false ↔ (summarizeFields d lg).2 ≠ "")) :=
  ⟨parseFields_invariant, summarizeFields_invariant⟩

/-- Witness for the amended claim C6 at a concrete invalid decision and a
non-empty log. -/
theorem claimC6_witness :
    ("issue log" : String) ≠ "" ∧
      ((summarizeFields "no" "issue log").1 = false ↔
        (summarizeFields "no" "issue log").2 ≠ "") :=
  ⟨by decide, claimC6_amended.2 "no" "issue log" (by decide)⟩

/-- Claim C7 (merge_consecutive): the conversation
[user "a", user "b", system "c"] merges to [user "a\n\nb", system "c"],
and merging consecutive same-role turns is idempotent. -/
theorem claimC7_merge :
    merge_consecutive_messages
      [⟨MessageRole.user, "a"⟩, ⟨MessageRole.user, "b"⟩, ⟨MessageRole.system, "c"⟩] =
      [⟨MessageRole.user, "a\n\nb"⟩, ⟨MessageRole.system, "c"⟩] ∧
    ∀ conversation : List Message,
      merge_consecutive_messages (merge_consecutive_messages conversation) =
        merge_consecutive_messages conversation := by
  refine ⟨by simp [merge_consecutive_messages], ?_⟩
  intro conversation
  exact merge_fixed _ (merge_alternates conversation.length _ (le_refl _))

/-- Claim C8, counterexample: text that starts with "no" and ends with
"yes" is classified valid, not invalid — the "yes" boundary conditions are
checked before the "no" ones, so the start match does not decide. -/
theorem claimC8_cex :
    pyStartsWith (lowerStr (pyStrip "no, but ultimately yes")).data "no".data = true ∧
    pyEndsWith (lowerStr (pyStrip "no, but ultimately yes")).data "yes".data = true ∧
    parseFields "no, but ultimately yes" = (true, "") := by
  decide

/-- Claim C8, amended: in the boundary-match strategy, when start and end
matches conflict, the "yes" conditions take precedence regardless of
position: any text reaching that strategy which starts with "no" and ends
with "yes" or "yes." is classified valid with an empty bug report. -/
theorem claimC8_amended (s : String)
    (h1 : verdictScan (parseLines s) = none)
    (h2 : lowerStr (pyStrip s) ≠ "no")
    (h3 : pyStartsWith (lowerStr (pyStrip s)).data "no".data = true)
    (h4 : pyEndsWith (lowerStr (pyStrip s)).data "yes".data = true ∨
          pyEndsWith (lowerStr (pyStrip s)).data "yes.".data = true) :
    parseFields s = (true, "") := by
  unfold parseFields
  rw [h1]
  dsimp only
  have hnyes : lowerStr (pyStrip s) ≠ "yes" := by
    intro he
    rw [he] at h3
    exact absurd h3 (by decide)
  rw [if_neg hnyes, if_neg h2]
  have hcond : (pyStartsWith (lowerStr (pyStrip s)).data "yes".data ||
      (pyEndsWith (lowerStr (pyStrip s)).data "yes".data ||
       pyEndsWith (lowerStr (pyStrip s)).data "yes.".data)) = true := by
    rcases h4 with h4 | h4 <;> simp [h4]
  rw [if_pos hcond]

/-- Witness for the amended claim C8 at a concrete no-then-yes text. -/
theorem claimC8_witness :
    parseFields "not sure, yes" = (true, "") :=
  claimC8_amended "not sure, yes" (by decide) (by decide) (by decide)
    (Or.inl (by decide))

/-- Claim C9, counterexample: with no marker present,
`extract_detailed_solution` returns the candidate text stripped of
surrounding whitespace, not unchanged. -/
theorem claimC9_cex :
    (extract_detailed_solution " x ").1 = "x" ∧
    (extract_detailed_solution " x ").1 ≠ " x " := by
  decide

/-- Claim C9, amended: when no section marker matches (neither in any line
nor as an inline substring), `extract_detailed_solution` never raises,
emits the missing-marker diagnostic, and returns the candidate text
stripped of leading and trailing whitespace (identical to the input only
when the input has none). -/
theorem claimC9_amended (text : String)
    (h1 : ∀ l ∈ splitNlAux text.data [], pyContainsL "Detailed Solution".data l = false)
    (h2 : pyFindAux "Detailed Solution".data text.data 0 = none) :
    extract_detailed_solution text = (pyStrip text, true) := by
  have hm : extractWithMarker text.data (splitNlAux text.data []) true
      "Detailed Solution".data = none := by
    unfold extractWithMarker
    rw [firstLineIdx_none _ _ h1, h2]
  unfold extract_detailed_solution
  simp [extractLoop, hm]

/-- Witness for the amended claim C9 at a concrete marker-free candidate. -/
theorem claimC9_witness :
    extract_detailed_solution "final remarks only" =
      (pyStrip "final remarks only", true) :=
  claimC9_amended "final remarks only" (by decide) (by decide)

/-- Claim C10: `max_iterations=0` does not cap the loop at zero iterations:
because the override is applied with Python `or`, the zero override behaves
exactly like passing no override, and the loop bound falls back to
`config.max_verification_iterations`, whose default is 30. -/
theorem claimC10_zero_override (O : SolveOracle) (cfg : AgentConfig) :
    MathAgent.solve O cfg (some 0) = MathAgent.solve O cfg none ∧
    solveInstr O cfg (some 0) = solveInstr O cfg none ∧
    resolveMaxIter (some 0) cfg.max_verification_iterations =
      cfg.max_verification_iterations ∧
    ({} : AgentConfig).max_verification_iterations = 30 := by
  exact ⟨rfl, rfl, rfl, rfl⟩
